import Mathlib

/-!
# Kudos ledger: verification of the core data model and transitions

Shallow embedding of the kudos ledger of `src/database.py` and the event
handlers / scheduler loops of `src/main.py`.

* the `users` table is a keyed list `List (Nat × User)` (key `user_id`);
* the `kudos_log` table is a list of `(message_id, reactor_id, creator_id)`
  rows with primary key `(message_id, reactor_id)`;
* the `monthly_history` table is a keyed list from month key `(year, month)`
  to a history record;
* calendar dates (stored as ISO strings in the code) are `Date` triples;
* SQL integers are `Int`, identifiers are `Nat`.

Each Lean definition mirrors one Python function (same name where Lean
allows) and keeps the source's statement order and guards.
-/

/-- A calendar date in the configured (America/Vancouver) time zone.  The code
stores dates as ISO `YYYY-MM-DD` strings; those are in bijection with the
triples used here. -/
structure Date where
  year : Nat
  month : Nat
  day : Nat
deriving DecidableEq, Repr

/-- One row of the `users` table (`src/database.py`, `setup_database`). -/
structure User where
  monthly_kudos : Int
  lifetime_level : Int
  daily_awards_given : Int
  last_award_date : Option Date
  last_message_date : Option Date
  greeting_enabled : Int
deriving DecidableEq, Repr

/-- Column defaults of the `users` table: balance 0, level 1, no awards given,
no dates recorded, greeting on. -/
def defaultUser : User :=
  { monthly_kudos := 0, lifetime_level := 1, daily_awards_given := 0,
    last_award_date := none, last_message_date := none, greeting_enabled := 1 }

/-- One row of the `monthly_history` table. -/
structure HistRec where
  user_id : Nat
  monthly_kudos : Int
  new_level : Int
  timestamp : Date
deriving DecidableEq, Repr

/-- A `kudos_log` row `(message_id, reactor_id, creator_id)`. -/
abbrev LogEntry := Nat × Nat × Nat

/-- The whole persistent store: users, kudos_log and monthly_history tables. -/
structure Db where
  users : List (Nat × User)
  log : List LogEntry
  history : List ((Nat × Nat) × HistRec)
deriving DecidableEq, Repr

/-- The store before any row was ever inserted. -/
def dbEmpty : Db := { users := [], log := [], history := [] }

/-- `SELECT * FROM users WHERE user_id = ?` : first row with the given key. -/
def findUser : List (Nat × User) → Nat → Option User
  | [], _ => none
  | p :: rest, uid => if p.1 = uid then some p.2 else findUser rest uid

/-- `UPDATE users SET ... WHERE user_id = ?` : rewrite every row with the given
key through `f` (the key is unique in reachable stores, but the embedding
mirrors SQL and touches all matches). -/
def updateUser (uid : Nat) (f : User → User) : List (Nat × User) → List (Nat × User)
  | [] => []
  | p :: rest => (if p.1 = uid then (p.1, f p.2) else p) :: updateUser uid f rest

/-- `get_or_create_user` (`src/database.py:92`): return the store unchanged if
the row exists, otherwise insert a default row. -/
def get_or_create_user (uid : Nat) (users : List (Nat × User)) : List (Nat × User) :=
  if (findUser users uid).isSome then users else users ++ [(uid, defaultUser)]

/-- Read a row that is known to exist (used right after `get_or_create_user`,
mirroring the Python pattern of re-fetching the row). -/
def getUserD (users : List (Nat × User)) (uid : Nat) : User :=
  (findUser users uid).getD defaultUser

/-- `award_kudos` (`src/database.py:110`): `+2` to the creator, then `+1`,
`daily_awards_given + 1` and `last_award_date = today` to the reactor. -/
def award_kudos (today : Date) (creator_id reactor_id : Nat)
    (users : List (Nat × User)) : List (Nat × User) :=
  updateUser reactor_id
    (fun u => { u with monthly_kudos := u.monthly_kudos + 1,
                       daily_awards_given := u.daily_awards_given + 1,
                       last_award_date := some today })
    (updateUser creator_id (fun u => { u with monthly_kudos := u.monthly_kudos + 2 }) users)

/-- `reset_daily_limit_if_needed` (`src/database.py:131`): get-or-create the
row, and when its `last_award_date` differs from today zero the daily counter
and stamp today's date. -/
def reset_daily_limit_if_needed (today : Date) (uid : Nat)
    (users : List (Nat × User)) : List (Nat × User) :=
  if (getUserD (get_or_create_user uid users) uid).last_award_date ≠ some today then
    updateUser uid
      (fun v => { v with daily_awards_given := 0, last_award_date := some today })
      (get_or_create_user uid users)
  else get_or_create_user uid users

/-- `remove_kudos` (`src/database.py:214`): `-2` to the creator only when the
balance is at least 2, then `-1` to the reactor only when at least 1.  The
daily quota is deliberately not refunded. -/
def remove_kudos (creator_id reactor_id : Nat)
    (users : List (Nat × User)) : List (Nat × User) :=
  updateUser reactor_id
    (fun u => if 1 ≤ u.monthly_kudos then { u with monthly_kudos := u.monthly_kudos - 1 } else u)
    (updateUser creator_id
      (fun u => if 2 ≤ u.monthly_kudos then { u with monthly_kudos := u.monthly_kudos - 2 } else u)
      users)

/-- `award_daily_greeting_kudos` (`src/database.py:325`): `+1` to the creator,
nothing to the bot. -/
def award_daily_greeting_kudos (creator_id : Nat)
    (users : List (Nat × User)) : List (Nat × User) :=
  updateUser creator_id (fun u => { u with monthly_kudos := u.monthly_kudos + 1 }) users

/-- Does the log hold a row with key `(message_id, reactor_id)`?
(`check_kudos_exists`, `src/database.py:254`.) -/
def logHas : List LogEntry → Nat → Nat → Bool
  | [], _, _ => false
  | e :: rest, msg, reactor =>
    if e.1 = msg ∧ e.2.1 = reactor then true else logHas rest msg reactor

/-- `log_kudos` (`src/database.py:238`): `INSERT OR IGNORE` — append the row
unless one with the same `(message_id, reactor_id)` key exists. -/
def log_kudos (msg reactor creator : Nat) (log : List LogEntry) : List LogEntry :=
  if logHas log msg reactor then log else log ++ [(msg, reactor, creator)]

/-- `delete_kudos_log` (`src/database.py:272`): drop every row with the given
`(message_id, reactor_id)` key. -/
def delete_kudos_log (msg reactor : Nat) : List LogEntry → List LogEntry
  | [] => []
  | e :: rest =>
    if e.1 = msg ∧ e.2.1 = reactor then delete_kudos_log msg reactor rest
    else e :: delete_kudos_log msg reactor rest

/-- Number of log rows with the given `(message_id, reactor_id)` key. -/
def countKey (msg reactor : Nat) : List LogEntry → Nat
  | [] => 0
  | e :: rest =>
    (if e.1 = msg ∧ e.2.1 = reactor then 1 else 0) + countKey msg reactor rest

/-- All log rows with the given `(message_id, reactor_id)` key, in order. -/
def selectKey (msg reactor : Nat) : List LogEntry → List LogEntry
  | [] => []
  | e :: rest =>
    if e.1 = msg ∧ e.2.1 = reactor then e :: selectKey msg reactor rest
    else selectKey msg reactor rest

/-- `SELECT ... FROM users ORDER BY monthly_kudos DESC LIMIT 1`: the first row
holding the maximum balance (SQLite's tie order is its row order; the
embedding fixes the same deterministic choice). -/
def topUser : List (Nat × User) → Option (Nat × User)
  | [] => none
  | p :: rest =>
    match topUser rest with
    | none => some p
    | some q => if q.2.monthly_kudos > p.2.monthly_kudos then some q else some p

/-- Decay pass of `apply_daily_maintenance` (`src/database.py:169`):
when `decay > 0`, `UPDATE users SET monthly_kudos = monthly_kudos - decay
WHERE monthly_kudos > decay - 1`. -/
def decayStep (decay : Int) (users : List (Nat × User)) : List (Nat × User) :=
  if 0 < decay then
    users.map (fun p =>
      if decay - 1 < p.2.monthly_kudos then
        (p.1, { p.2 with monthly_kudos := p.2.monthly_kudos - decay })
      else p)
  else users

/-- `apply_daily_maintenance` (`src/database.py:156`): decay pass, then fetch
the top user, give them the bonus when `bonus > 0`, and return the top user's
id (or `none` when the table is empty). -/
def apply_daily_maintenance (decay bonus : Int)
    (users : List (Nat × User)) : Option Nat × List (Nat × User) :=
  match topUser (decayStep decay users) with
  | none => (none, decayStep decay users)
  | some (uid, _) =>
    (some uid,
     if 0 < bonus then
       updateUser uid (fun u => { u with monthly_kudos := u.monthly_kudos + bonus })
         (decayStep decay users)
     else decayStep decay users)

/-- `UPDATE users SET monthly_kudos = 0` over the whole table. -/
def zeroAllKudos (users : List (Nat × User)) : List (Nat × User) :=
  users.map (fun p => (p.1, { p.2 with monthly_kudos := 0 }))

/-- The `(year, month)` key of a date's calendar month (`strftime('%Y-%m')`). -/
def monthKey (d : Date) : Nat × Nat := (d.year, d.month)

/-- The month one before the given date's month
(`now - relativedelta(months=1)` followed by `strftime('%Y-%m')`). -/
def prevMonth (d : Date) : Nat × Nat :=
  if d.month = 1 then (d.year - 1, 12) else (d.year, d.month - 1)

/-- `INSERT OR REPLACE INTO monthly_history`: drop any row with the same month
key, then insert the new row. -/
def upsertHistory (key : Nat × Nat) (rec : HistRec)
    (hist : List ((Nat × Nat) × HistRec)) : List ((Nat × Nat) × HistRec) :=
  (hist.filter (fun h => h.1 ≠ key)) ++ [(key, rec)]

/-- Look a month key up in the history table. -/
def findHistory (hist : List ((Nat × Nat) × HistRec)) (key : Nat × Nat) : Option HistRec :=
  (hist.find? (fun h => h.1 = key)).map (fun h => h.2)

/-- `monthly_reset` (`src/database.py:182`): fetch the top-balance row, bump
its level, upsert a history record under the previous month's key carrying the
pre-reset balance and the new level, then zero every balance and clear the
kudos_log.  Returns the winner row as fetched, i.e. with its pre-promotion
level. -/
def monthly_reset (now : Date) (db : Db) : Option (Nat × User) × Db :=
  match topUser db.users with
  | none => (none, { db with users := zeroAllKudos db.users, log := [] })
  | some (uid, u) =>
    (some (uid, u),
     { users := zeroAllKudos
         (updateUser uid (fun v => { v with lifetime_level := u.lifetime_level + 1 }) db.users),
       log := [],
       history := upsertHistory (prevMonth now)
         { user_id := uid, monthly_kudos := u.monthly_kudos,
           new_level := u.lifetime_level + 1, timestamp := now } db.history })

/-- The award path of `on_raw_reaction_add` (`src/main.py:295` onward), after
the transport-level guards (emoji match, validity window, no self-kudos):
normalize the reactor's daily counter, reject when the counter has reached the
limit, otherwise get-or-create the creator, apply `award_kudos` and record the
log row.  Returns whether the award was applied. -/
def onReactionAdd (limit : Int) (today : Date) (msg reactor_id creator_id : Nat)
    (db : Db) : Bool × Db :=
  if limit ≤ (getUserD (reset_daily_limit_if_needed today reactor_id db.users)
      reactor_id).daily_awards_given then
    (false, { db with users := reset_daily_limit_if_needed today reactor_id db.users })
  else
    (true,
     { db with
       users := award_kudos today creator_id reactor_id
         (get_or_create_user creator_id (reset_daily_limit_if_needed today reactor_id db.users)),
       log := log_kudos msg reactor_id creator_id db.log })

/-- The retract path of `on_raw_reaction_remove` (`src/main.py:347`): honored
only when the log holds the `(message, reactor)` key, in which case the
balances are reversed under the floor guards and the log row deleted. -/
def onReactionRemove (msg reactor_id creator_id : Nat) (db : Db) : Db :=
  if logHas db.log msg reactor_id then
    { db with users := remove_kudos creator_id reactor_id db.users,
              log := delete_kudos_log msg reactor_id db.log }
  else db

/-- The bot-reaction branch of `on_raw_reaction_add` (`src/main.py:280`):
get-or-create the creator, grant the greeting `+1`, record the log row. -/
def onBotGreetingReaction (msg bot_id creator_id : Nat) (db : Db) : Db :=
  { db with
    users := award_daily_greeting_kudos creator_id (get_or_create_user creator_id db.users),
    log := log_kudos msg bot_id creator_id db.log }

/-- The owner-only `add_kudos` command (`src/main.py:563`): rejected unless the
amount is a positive integer, otherwise get-or-create the target and add the
amount to its balance. -/
def addKudosCommand (uid : Nat) (amount : Int) (db : Db) : Db :=
  if amount ≤ 0 then db
  else
    { db with
      users := updateUser uid (fun u => { u with monthly_kudos := u.monthly_kudos + amount })
        (get_or_create_user uid db.users) }

/-- One tick of `daily_maintenance_loop` (`src/main.py:654`): run
`apply_daily_maintenance` and stamp the marker exactly when the persisted
`LAST_MAINTENANCE_DATE` marker differs from today's date. -/
def dailyTick (decay bonus : Int) (today : Date) (marker : Option Date)
    (db : Db) : Option Date × Db :=
  if marker = some today then (marker, db)
  else (some today, { db with users := (apply_daily_maintenance decay bonus db.users).2 })

/-- One tick of `monthly_reset_loop` (`src/main.py:679`): run `monthly_reset`
and stamp the marker exactly when today is the 1st of the month and the
persisted `LAST_MONTHLY_RESET_DATE` marker differs from today's date. -/
def monthlyTick (now : Date) (marker : Option Date) (db : Db) : Option Date × Db :=
  if now.day = 1 ∧ marker ≠ some now then (some now, (monthly_reset now db).2)
  else (marker, db)

/-!
## Helper lemmas about the keyed stores
-/

/-- The daily counter as any read path sees it: zeroed (with today's date
stamped) when the stored date is stale, untouched otherwise. -/
def normalizeDaily (today : Date) (u : User) : User :=
  if u.last_award_date = some today then u
  else { u with daily_awards_given := 0, last_award_date := some today }

theorem normalizeDaily_daily (today : Date) (u : User) :
    (normalizeDaily today u).daily_awards_given =
      if u.last_award_date = some today then u.daily_awards_given else 0 := by
  unfold normalizeDaily; split <;> rfl

theorem findUser_updateUser_self (uid : Nat) (f : User → User) (users : List (Nat × User)) :
    findUser (updateUser uid f users) uid = (findUser users uid).map f := by
  induction users with
  | nil => rfl
  | cons p rest ih =>
    by_cases h : p.1 = uid <;> simp [updateUser, findUser, h, ih]

theorem findUser_updateUser_ne (uid v : Nat) (h : v ≠ uid) (f : User → User)
    (users : List (Nat × User)) :
    findUser (updateUser uid f users) v = findUser users v := by
  induction users with
  | nil => rfl
  | cons p rest ih =>
    by_cases hp : p.1 = uid
    · have huv : uid ≠ v := fun hh => h hh.symm
      simp [updateUser, findUser, hp, huv, ih]
    · by_cases hv : p.1 = v <;> simp [updateUser, findUser, hp, hv, h, ih]

theorem findUser_append_single (uid v : Nat) (u : User) (users : List (Nat × User)) :
    findUser (users ++ [(uid, u)]) v =
      match findUser users v with
      | some w => some w
      | none => if uid = v then some u else none := by
  induction users with
  | nil => rfl
  | cons p rest ih =>
    by_cases hp : p.1 = v
    · simp [findUser, hp]
    · simp [findUser, hp, ih]

theorem findUser_goc_ne (uid v : Nat) (h : v ≠ uid) (users : List (Nat × User)) :
    findUser (get_or_create_user uid users) v = findUser users v := by
  unfold get_or_create_user
  split
  · rfl
  · rw [findUser_append_single]
    have huv : ¬ uid = v := fun hh => h hh.symm
    cases hf : findUser users v <;> simp [hf, huv]

theorem findUser_goc_self (uid : Nat) (users : List (Nat × User)) :
    findUser (get_or_create_user uid users) uid = some (getUserD users uid) := by
  unfold get_or_create_user getUserD
  cases h : findUser users uid with
  | some u => simp [h]
  | none => simp [h, findUser_append_single]

theorem getUserD_goc_self (uid : Nat) (users : List (Nat × User)) :
    getUserD (get_or_create_user uid users) uid = getUserD users uid := by
  simp [getUserD, findUser_goc_self]

theorem findUser_reset_ne (today : Date) (uid v : Nat) (h : v ≠ uid)
    (users : List (Nat × User)) :
    findUser (reset_daily_limit_if_needed today uid users) v = findUser users v := by
  unfold reset_daily_limit_if_needed
  split
  · rw [findUser_updateUser_ne uid v h, findUser_goc_ne uid v h]
  · rw [findUser_goc_ne uid v h]

theorem findUser_reset_self (today : Date) (uid : Nat) (users : List (Nat × User)) :
    findUser (reset_daily_limit_if_needed today uid users) uid =
      some (normalizeDaily today (getUserD users uid)) := by
  unfold reset_daily_limit_if_needed normalizeDaily
  rw [getUserD_goc_self]
  by_cases h : (getUserD users uid).last_award_date = some today
  · simp [h, findUser_goc_self]
  · simp [h, findUser_updateUser_self, findUser_goc_self]

theorem getUserD_reset_self (today : Date) (uid : Nat) (users : List (Nat × User)) :
    getUserD (reset_daily_limit_if_needed today uid users) uid =
      normalizeDaily today (getUserD users uid) := by
  unfold getUserD; rw [findUser_reset_self]; rfl

theorem logHas_append (msg r : Nat) (L1 L2 : List LogEntry) :
    logHas (L1 ++ L2) msg r = (logHas L1 msg r || logHas L2 msg r) := by
  induction L1 with
  | nil => rfl
  | cons e rest ih =>
    by_cases h : e.1 = msg ∧ e.2.1 = r <;> simp [logHas, h, ih]

theorem logHas_log_kudos_self (msg r c : Nat) (L : List LogEntry) :
    logHas (log_kudos msg r c L) msg r = true := by
  unfold log_kudos
  cases h : logHas L msg r with
  | true => simp [h]
  | false => simp [h, logHas_append, logHas]

theorem log_kudos_of_logHas (msg r c : Nat) (L : List LogEntry)
    (h : logHas L msg r = true) : log_kudos msg r c L = L := by
  simp [log_kudos, h]

theorem countKey_append (msg r : Nat) (L1 L2 : List LogEntry) :
    countKey msg r (L1 ++ L2) = countKey msg r L1 + countKey msg r L2 := by
  induction L1 with
  | nil => simp [countKey]
  | cons e rest ih =>
    by_cases h : e.1 = msg ∧ e.2.1 = r <;> simp [countKey, h, ih]
    omega

theorem countKey_zero_of_not_logHas (msg r : Nat) (L : List LogEntry)
    (h : logHas L msg r = false) : countKey msg r L = 0 := by
  induction L with
  | nil => rfl
  | cons e rest ih =>
    by_cases he : e.1 = msg ∧ e.2.1 = r
    · simp [logHas, he] at h
    · simp [logHas, he] at h
      simp [countKey, he, ih h]

theorem selectKey_append (msg r : Nat) (L1 L2 : List LogEntry) :
    selectKey msg r (L1 ++ L2) = selectKey msg r L1 ++ selectKey msg r L2 := by
  induction L1 with
  | nil => rfl
  | cons e rest ih =>
    by_cases h : e.1 = msg ∧ e.2.1 = r <;> simp [selectKey, h, ih]

theorem selectKey_nil_of_not_logHas (msg r : Nat) (L : List LogEntry)
    (h : logHas L msg r = false) : selectKey msg r L = [] := by
  induction L with
  | nil => rfl
  | cons e rest ih =>
    by_cases he : e.1 = msg ∧ e.2.1 = r
    · simp [logHas, he] at h
    · simp [logHas, he] at h
      simp [selectKey, he, ih h]

theorem logHas_delete (msg r : Nat) (L : List LogEntry) :
    logHas (delete_kudos_log msg r L) msg r = false := by
  induction L with
  | nil => rfl
  | cons e rest ih =>
    by_cases he : e.1 = msg ∧ e.2.1 = r <;> simp [delete_kudos_log, logHas, he, ih]

theorem normalizeDaily_kudos (today : Date) (u : User) :
    (normalizeDaily today u).monthly_kudos = u.monthly_kudos := by
  unfold normalizeDaily; split <;> rfl

theorem award_success_effects (limit : Int) (today : Date) (msg a b : Nat) (db : Db)
    (hne : a ≠ b)
    (hq : (normalizeDaily today (getUserD db.users a)).daily_awards_given < limit) :
    (onReactionAdd limit today msg a b db).1 = true
    ∧ findUser (onReactionAdd limit today msg a b db).2.users b =
        some { getUserD db.users b with
               monthly_kudos := (getUserD db.users b).monthly_kudos + 2 }
    ∧ findUser (onReactionAdd limit today msg a b db).2.users a =
        some { normalizeDaily today (getUserD db.users a) with
               monthly_kudos := (normalizeDaily today (getUserD db.users a)).monthly_kudos + 1,
               daily_awards_given :=
                 (normalizeDaily today (getUserD db.users a)).daily_awards_given + 1,
               last_award_date := some today }
    ∧ (onReactionAdd limit today msg a b db).2.log = log_kudos msg a b db.log
    ∧ (onReactionAdd limit today msg a b db).2.history = db.history := by
  have hba : b ≠ a := Ne.symm hne
  have hcond : ¬ limit ≤ (getUserD (reset_daily_limit_if_needed today a db.users)
      a).daily_awards_given := by
    rw [getUserD_reset_self]; omega
  have hfb : findUser (onReactionAdd limit today msg a b db).2.users b =
      some { getUserD db.users b with
             monthly_kudos := (getUserD db.users b).monthly_kudos + 2 } := by
    simp only [onReactionAdd, if_neg hcond, award_kudos]
    rw [findUser_updateUser_ne a b hba, findUser_updateUser_self, findUser_goc_self]
    have : getUserD (reset_daily_limit_if_needed today a db.users) b = getUserD db.users b := by
      unfold getUserD; rw [findUser_reset_ne today a b hba]
    rw [this]
    rfl
  have hfa : findUser (onReactionAdd limit today msg a b db).2.users a =
      some { normalizeDaily today (getUserD db.users a) with
             monthly_kudos := (normalizeDaily today (getUserD db.users a)).monthly_kudos + 1,
             daily_awards_given :=
               (normalizeDaily today (getUserD db.users a)).daily_awards_given + 1,
             last_award_date := some today } := by
    simp only [onReactionAdd, if_neg hcond, award_kudos]
    rw [findUser_updateUser_self, findUser_updateUser_ne b a hne,
      findUser_goc_ne b a hne, findUser_reset_self]
    rfl
  refine ⟨?_, hfb, hfa, ?_, ?_⟩ <;> simp only [onReactionAdd, if_neg hcond]

theorem getUserD_of_findUser {users : List (Nat × User)} {uid : Nat} {u : User}
    (h : findUser users uid = some u) : getUserD users uid = u := by
  unfold getUserD; rw [h]; rfl

theorem normalizeDaily_of_today {today : Date} {u : User}
    (h : u.last_award_date = some today) : normalizeDaily today u = u := by
  unfold normalizeDaily; rw [if_pos h]

/-!
## C2: effects of a successful award
-/

/-- C2: when the actor is under quota and both identities have records, a
successful award adds exactly 2 to the beneficiary's balance, exactly 1 to the
actor's balance, exactly 1 to the actor's (date-normalized) daily counter,
stamps the actor's `last_award_date` with today, and leaves exactly one
Award Log row for the `(stimulus, actor)` key, mapping to the beneficiary. -/
theorem c2_award_success (limit : Int) (today : Date) (msg a b : Nat) (db : Db)
    (ua ub : User) (hne : a ≠ b)
    (ha : findUser db.users a = some ua) (hb : findUser db.users b = some ub)
    (hq : (if ua.last_award_date = some today then ua.daily_awards_given else 0) < limit)
    (hfresh : logHas db.log msg a = false) :
    (onReactionAdd limit today msg a b db).1 = true
    ∧ findUser (onReactionAdd limit today msg a b db).2.users b =
        some { ub with monthly_kudos := ub.monthly_kudos + 2 }
    ∧ findUser (onReactionAdd limit today msg a b db).2.users a =
        some { ua with
               monthly_kudos := ua.monthly_kudos + 1,
               daily_awards_given :=
                 (if ua.last_award_date = some today then ua.daily_awards_given else 0) + 1,
               last_award_date := some today }
    ∧ selectKey msg a (onReactionAdd limit today msg a b db).2.log = [(msg, a, b)]
    ∧ countKey msg a (onReactionAdd limit today msg a b db).2.log = 1 := by
  have hga : getUserD db.users a = ua := getUserD_of_findUser ha
  have hgb : getUserD db.users b = ub := getUserD_of_findUser hb
  have hq' : (normalizeDaily today (getUserD db.users a)).daily_awards_given < limit := by
    rw [hga, normalizeDaily_daily]; exact hq
  obtain ⟨h1, h2, h3, h4, _⟩ := award_success_effects limit today msg a b db hne hq'
  refine ⟨h1, ?_, ?_, ?_, ?_⟩
  · rw [h2, hgb]
  · rw [h3, hga]
    by_cases hl : ua.last_award_date = some today <;>
      simp [normalizeDaily, hl]
  · rw [h4]
    simp [log_kudos, hfresh, selectKey_append,
      selectKey_nil_of_not_logHas msg a db.log hfresh, selectKey]
  · rw [h4]
    simp [log_kudos, hfresh, countKey_append,
      countKey_zero_of_not_logHas msg a db.log hfresh, countKey]

/-- Store used to witness C2: two existing identities, empty log. -/
def dbW2 : Db := { users := [(7, defaultUser), (9, defaultUser)], log := [], history := [] }

/-- Witness for C2 at actor 7, beneficiary 9, limit 5, fresh stimulus 100. -/
theorem c2_award_success_witness :
    (onReactionAdd 5 ⟨2025, 5, 5⟩ 100 7 9 dbW2).1 = true
    ∧ findUser (onReactionAdd 5 ⟨2025, 5, 5⟩ 100 7 9 dbW2).2.users 9 =
        some { defaultUser with monthly_kudos := defaultUser.monthly_kudos + 2 }
    ∧ findUser (onReactionAdd 5 ⟨2025, 5, 5⟩ 100 7 9 dbW2).2.users 7 =
        some { defaultUser with
               monthly_kudos := defaultUser.monthly_kudos + 1,
               daily_awards_given :=
                 (if defaultUser.last_award_date = some ⟨2025, 5, 5⟩ then
                    defaultUser.daily_awards_given else 0) + 1,
               last_award_date := some ⟨2025, 5, 5⟩ }
    ∧ selectKey 100 7 (onReactionAdd 5 ⟨2025, 5, 5⟩ 100 7 9 dbW2).2.log = [(100, 7, 9)]
    ∧ countKey 100 7 (onReactionAdd 5 ⟨2025, 5, 5⟩ 100 7 9 dbW2).2.log = 1 :=
  c2_award_success 5 ⟨2025, 5, 5⟩ 100 7 9 dbW2 defaultUser defaultUser
    (by decide) (by decide) (by decide) (by decide) (by decide)

/-!
## C1: duplicate delivery of the same award stimulus
-/

/-- Store after one delivery of the award stimulus (message 1, reactor 1,
creator 2) to the empty store with daily limit 5. -/
def dbC1a : Db := (onReactionAdd 5 ⟨2025, 1, 15⟩ 1 1 2 dbEmpty).2

/-- Store after a second, identical delivery. -/
def dbC1b : Db := (onReactionAdd 5 ⟨2025, 1, 15⟩ 1 1 2 dbC1a).2

/-- C1 is false as stated: delivering the same award stimulus twice through
the award path applies the balance change twice — after the second identical
delivery the beneficiary holds 4 kudos instead of 2 and the actor's counter
advanced again; only the log is unchanged. -/
theorem c1_counterexample :
    findUser dbC1a.users 2 = some { defaultUser with monthly_kudos := 2 }
    ∧ findUser dbC1b.users 2 = some { defaultUser with monthly_kudos := 4 }
    ∧ (getUserD dbC1b.users 1).daily_awards_given =
        (getUserD dbC1a.users 1).daily_awards_given + 1
    ∧ dbC1b.users ≠ dbC1a.users
    ∧ dbC1b.log = dbC1a.log := by decide

/-- C1 amended: the award path never consults the Award Log before mutating
balances, so a second identical delivery that passes the quota check applies
the balance change again (+2 beneficiary, +1 actor, +1 daily counter); only
the log write is suppressed by insert-if-absent, leaving the log with exactly
one row for the key and unchanged by the second delivery. -/
theorem c1_amended (limit : Int) (today : Date) (msg a b : Nat) (db db1 : Db)
    (hne : a ≠ b) (hfresh : logHas db.log msg a = false)
    (hdb1 : onReactionAdd limit today msg a b db = (true, db1)) :
    (onReactionAdd limit today msg a b db1).2.log = db1.log
    ∧ countKey msg a db1.log = 1
    ∧ ((onReactionAdd limit today msg a b db1).1 = true →
        (getUserD (onReactionAdd limit today msg a b db1).2.users b).monthly_kudos =
          (getUserD db1.users b).monthly_kudos + 2
        ∧ (getUserD (onReactionAdd limit today msg a b db1).2.users a).monthly_kudos =
            (getUserD db1.users a).monthly_kudos + 1
        ∧ (getUserD (onReactionAdd limit today msg a b db1).2.users a).daily_awards_given =
            (getUserD db1.users a).daily_awards_given + 1) := by
  have hcond1 : ¬ limit ≤ (getUserD (reset_daily_limit_if_needed today a db.users)
      a).daily_awards_given := by
    intro hle
    simp only [onReactionAdd, if_pos hle, Prod.mk.injEq] at hdb1
    exact Bool.false_ne_true hdb1.1
  have hsnd : (onReactionAdd limit today msg a b db).2 = db1 := by rw [hdb1]
  have hlog1 : db1.log = log_kudos msg a b db.log := by
    rw [← hsnd]
    simp only [onReactionAdd, if_neg hcond1]
  have hhas : logHas db1.log msg a = true := by
    rw [hlog1]; exact logHas_log_kudos_self msg a b db.log
  refine ⟨?_, ?_, ?_⟩
  · simp only [onReactionAdd]
    split
    · rfl
    · exact log_kudos_of_logHas msg a b db1.log hhas
  · rw [hlog1]
    simp [log_kudos, hfresh, countKey_append,
      countKey_zero_of_not_logHas msg a db.log hfresh, countKey]
  · intro h2
    have hcond2 : ¬ limit ≤ (getUserD (reset_daily_limit_if_needed today a db1.users)
        a).daily_awards_given := by
      intro hle
      simp only [onReactionAdd, if_pos hle] at h2
      exact Bool.false_ne_true h2
    have hq2 : (normalizeDaily today (getUserD db1.users a)).daily_awards_given < limit := by
      rw [getUserD_reset_self] at hcond2; omega
    obtain ⟨_, h2b, h2a, _, _⟩ := award_success_effects limit today msg a b db1 hne hq2
    have hq1 : (normalizeDaily today (getUserD db.users a)).daily_awards_given < limit := by
      rw [getUserD_reset_self] at hcond1; omega
    obtain ⟨_, _, h1a, _, _⟩ := award_success_effects limit today msg a b db hne hq1
    rw [hsnd] at h1a
    have hlast : (getUserD db1.users a).last_award_date = some today := by
      rw [getUserD_of_findUser h1a]
    have hnorm : normalizeDaily today (getUserD db1.users a) = getUserD db1.users a :=
      normalizeDaily_of_today hlast
    rw [hnorm] at h2a
    refine ⟨?_, ?_, ?_⟩
    · rw [getUserD_of_findUser h2b]
    · rw [getUserD_of_findUser h2a]
    · rw [getUserD_of_findUser h2a]

/-- Witness for the amended C1 on the concrete double delivery of
`dbC1a`/`dbC1b`: the second delivery kept the log at one row and re-applied
the +2 to the beneficiary. -/
theorem c1_amended_witness :
    countKey 1 1 dbC1a.log = 1
    ∧ (getUserD dbC1b.users 2).monthly_kudos = (getUserD dbC1a.users 2).monthly_kudos + 2 :=
  ⟨(c1_amended 5 ⟨2025, 1, 15⟩ 1 1 2 dbEmpty dbC1a (by decide) (by decide) (by decide)).2.1,
   ((c1_amended 5 ⟨2025, 1, 15⟩ 1 1 2 dbEmpty dbC1a (by decide) (by decide)
      (by decide)).2.2 (by decide)).1⟩

/-!
## C3: retraction semantics
-/

theorem onReactionRemove_noop (msg a b : Nat) (db : Db)
    (h : logHas db.log msg a = false) : onReactionRemove msg a b db = db := by
  simp [onReactionRemove, h]

theorem logHas_onReactionRemove (msg a b : Nat) (db : Db) :
    logHas (onReactionRemove msg a b db).log msg a = false := by
  by_cases hl : logHas db.log msg a = true
  · simp only [onReactionRemove, if_pos hl]
    exact logHas_delete msg a db.log
  · simp only [Bool.not_eq_true] at hl
    rw [onReactionRemove_noop msg a b db hl]
    exact hl

/-- C3: a retract honored by the log subtracts 2 from the beneficiary and 1
from the actor, each only when the balance is at least the amount (so the
floor guard never drives a non-negative balance below zero), and deletes the
log row; a retract with no matching log row is a no-op, and retract is
idempotent. -/
theorem c3_retract (msg a b : Nat) (db : Db) (ua ub : User)
    (hne : a ≠ b)
    (ha : findUser db.users a = some ua) (hb : findUser db.users b = some ub) :
    (logHas db.log msg a = true →
       findUser (onReactionRemove msg a b db).users b =
         some (if 2 ≤ ub.monthly_kudos then
           { ub with monthly_kudos := ub.monthly_kudos - 2 } else ub)
       ∧ findUser (onReactionRemove msg a b db).users a =
         some (if 1 ≤ ua.monthly_kudos then
           { ua with monthly_kudos := ua.monthly_kudos - 1 } else ua)
       ∧ (0 ≤ ub.monthly_kudos →
           0 ≤ (if 2 ≤ ub.monthly_kudos then
             { ub with monthly_kudos := ub.monthly_kudos - 2 } else ub).monthly_kudos)
       ∧ (0 ≤ ua.monthly_kudos →
           0 ≤ (if 1 ≤ ua.monthly_kudos then
             { ua with monthly_kudos := ua.monthly_kudos - 1 } else ua).monthly_kudos)
       ∧ logHas (onReactionRemove msg a b db).log msg a = false)
    ∧ (logHas db.log msg a = false → onReactionRemove msg a b db = db)
    ∧ onReactionRemove msg a b (onReactionRemove msg a b db) =
        onReactionRemove msg a b db := by
  have hba : b ≠ a := Ne.symm hne
  refine ⟨?_, onReactionRemove_noop msg a b db, ?_⟩
  · intro hl
    refine ⟨?_, ?_, ?_, ?_, logHas_onReactionRemove msg a b db⟩
    · simp only [onReactionRemove, if_pos hl, remove_kudos]
      rw [findUser_updateUser_ne a b hba, findUser_updateUser_self, hb]
      rfl
    · simp only [onReactionRemove, if_pos hl, remove_kudos]
      rw [findUser_updateUser_self, findUser_updateUser_ne b a hne, ha]
      rfl
    · intro h0
      by_cases hc : 2 ≤ ub.monthly_kudos
      · rw [if_pos hc]
        show 0 ≤ ub.monthly_kudos - 2
        omega
      · rw [if_neg hc]
        exact h0
    · intro h0
      by_cases hc : 1 ≤ ua.monthly_kudos
      · rw [if_pos hc]
        show 0 ≤ ua.monthly_kudos - 1
        omega
      · rw [if_neg hc]
        exact h0
  · exact onReactionRemove_noop msg a b (onReactionRemove msg a b db)
      (logHas_onReactionRemove msg a b db)

/-- Store used to witness C3: actor 3 with 1 kudos, beneficiary 4 with 2
kudos, one live log row for stimulus 50 by actor 3. -/
def dbW3 : Db :=
  { users := [(3, { defaultUser with monthly_kudos := 1 }),
              (4, { defaultUser with monthly_kudos := 2 })],
    log := [(50, 3, 4)], history := [] }

/-- Witness for C3: the honored retract floors both balances at 0, clears the
log row, and a second retract is a no-op. -/
theorem c3_retract_witness :
    findUser (onReactionRemove 50 3 4 dbW3).users 4 =
      some { defaultUser with monthly_kudos := 0 }
    ∧ findUser (onReactionRemove 50 3 4 dbW3).users 3 =
      some { defaultUser with monthly_kudos := 0 }
    ∧ logHas (onReactionRemove 50 3 4 dbW3).log 50 3 = false
    ∧ onReactionRemove 50 3 4 (onReactionRemove 50 3 4 dbW3) =
        onReactionRemove 50 3 4 dbW3 := by
  obtain ⟨h1, _, h3⟩ := c3_retract 50 3 4 dbW3 { defaultUser with monthly_kudos := 1 }
    { defaultUser with monthly_kudos := 2 } (by decide) (by decide) (by decide)
  obtain ⟨hb, ha, _, _, hlog⟩ := h1 (by decide)
  exact ⟨by simpa using hb, by simpa using ha, hlog, h3⟩

/-!
## C5: daily quota enforcement and date rollover
-/

/-- C5: an actor whose record carries today's date and a daily counter at or
over the limit is rejected with the whole store untouched; an actor whose
stored date is stale has the counter reset first, so with a positive limit
the award succeeds and the counter ends at 1. -/
theorem c5_quota (limit : Int) (today : Date) (msg a b : Nat) (db : Db) (ua : User)
    (hne : a ≠ b) (ha : findUser db.users a = some ua) :
    ((ua.last_award_date = some today ∧ limit ≤ ua.daily_awards_given) →
       onReactionAdd limit today msg a b db = (false, db))
    ∧ ((ua.last_award_date ≠ some today ∧ 0 < limit) →
       (onReactionAdd limit today msg a b db).1 = true
       ∧ (getUserD (onReactionAdd limit today msg a b db).2.users a).daily_awards_given = 1) := by
  constructor
  · rintro ⟨hl, hq⟩
    have hgoc : get_or_create_user a db.users = db.users := by
      simp [get_or_create_user, ha]
    have husers : reset_daily_limit_if_needed today a db.users = db.users := by
      unfold reset_daily_limit_if_needed
      rw [getUserD_goc_self, getUserD_of_findUser ha, if_neg (by simp [hl]), hgoc]
    simp only [onReactionAdd, husers]
    rw [getUserD_of_findUser ha, if_pos hq]
  · rintro ⟨hl, hpos⟩
    have hq' : (normalizeDaily today (getUserD db.users a)).daily_awards_given < limit := by
      rw [getUserD_of_findUser ha, normalizeDaily_daily, if_neg hl]; omega
    obtain ⟨h1, _, h3, _, _⟩ := award_success_effects limit today msg a b db hne hq'
    refine ⟨h1, ?_⟩
    rw [getUserD_of_findUser h3]
    show (normalizeDaily today (getUserD db.users a)).daily_awards_given + 1 = 1
    rw [getUserD_of_findUser ha, normalizeDaily_daily, if_neg hl]
    omega

/-- Store used to witness C5: actor 3 has exhausted the limit of 5 on
2025-06-01. -/
def dbW5 : Db :=
  { users := [(3, { defaultUser with
                    daily_awards_given := 5,
                    last_award_date := some ⟨2025, 6, 1⟩ }),
              (4, defaultUser)],
    log := [], history := [] }

/-- Witness for C5: rejected same-day with the store untouched; succeeds the
next day with the counter reset to 1. -/
theorem c5_quota_witness :
    onReactionAdd 5 ⟨2025, 6, 1⟩ 200 3 4 dbW5 = (false, dbW5)
    ∧ ((onReactionAdd 5 ⟨2025, 6, 2⟩ 200 3 4 dbW5).1 = true
       ∧ (getUserD (onReactionAdd 5 ⟨2025, 6, 2⟩ 200 3 4 dbW5).2.users 3).daily_awards_given
           = 1) :=
  ⟨(c5_quota 5 ⟨2025, 6, 1⟩ 200 3 4 dbW5
      { defaultUser with daily_awards_given := 5, last_award_date := some ⟨2025, 6, 1⟩ }
      (by decide) (by decide)).1 (by decide),
   (c5_quota 5 ⟨2025, 6, 2⟩ 200 3 4 dbW5
      { defaultUser with daily_awards_given := 5, last_award_date := some ⟨2025, 6, 1⟩ }
      (by decide) (by decide)).2 (by decide)⟩

/-!
## C4: monthly reset on a concrete store
-/

/-- Store for C4: A (id 1) holds 10 kudos at level 3, B (id 2) holds 3 kudos
at level 7; one live log row; history already has a January record and a stale
February record that the reset must replace. -/
def dbC4 : Db :=
  { users := [(1, { defaultUser with monthly_kudos := 10, lifetime_level := 3 }),
              (2, { defaultUser with monthly_kudos := 3, lifetime_level := 7 })],
    log := [(5, 2, 1)],
    history := [((2025, 1), { user_id := 9, monthly_kudos := 4, new_level := 2,
                              timestamp := ⟨2025, 2, 1⟩ }),
                ((2025, 2), { user_id := 9, monthly_kudos := 6, new_level := 3,
                              timestamp := ⟨2025, 2, 20⟩ })] }

/-- C4: running the monthly reset on 2025-03-01 over `{A:10, B:3}` upserts the
history record for the closing month 2025-02 (winner A, recorded balance 10,
new level 3+1), zeroes every balance, empties the Award Log, and leaves B's
lifetime level unchanged at 7. -/
theorem c4_monthly_reset :
    (monthly_reset ⟨2025, 3, 1⟩ dbC4).1 =
      some (1, { defaultUser with monthly_kudos := 10, lifetime_level := 3 })
    ∧ (monthly_reset ⟨2025, 3, 1⟩ dbC4).2.users =
      [(1, { defaultUser with monthly_kudos := 0, lifetime_level := 4 }),
       (2, { defaultUser with monthly_kudos := 0, lifetime_level := 7 })]
    ∧ (monthly_reset ⟨2025, 3, 1⟩ dbC4).2.log = []
    ∧ (monthly_reset ⟨2025, 3, 1⟩ dbC4).2.history =
      [((2025, 1), { user_id := 9, monthly_kudos := 4, new_level := 2,
                     timestamp := ⟨2025, 2, 1⟩ }),
       ((2025, 2), { user_id := 1, monthly_kudos := 10, new_level := 4,
                     timestamp := ⟨2025, 3, 1⟩ })] := by decide

/-!
## C6: the decay pass
-/

theorem findUser_decayStep (decay : Int) (uid : Nat) (users : List (Nat × User)) :
    findUser (decayStep decay users) uid =
      (findUser users uid).map (fun u =>
        if 0 < decay ∧ decay - 1 < u.monthly_kudos then
          { u with monthly_kudos := u.monthly_kudos - decay } else u) := by
  by_cases hd : 0 < decay
  · simp only [decayStep, if_pos hd]
    induction users with
    | nil => rfl
    | cons p rest ih =>
      by_cases hp : p.1 = uid
      · by_cases hc : decay - 1 < p.2.monthly_kudos <;>
          simp [findUser, hp, hc, hd]
      · by_cases hc : decay - 1 < p.2.monthly_kudos <;>
          simp [findUser, hp, hc, ih]
  · simp only [decayStep, if_neg hd]
    cases h : findUser users uid <;> simp [h, hd]

/-- Balances for C6: `{A:5, B:2, C:0}` as identities 1, 2, 3. -/
def usersC6 : List (Nat × User) :=
  [(1, { defaultUser with monthly_kudos := 5 }),
   (2, { defaultUser with monthly_kudos := 2 }),
   (3, defaultUser)]

/-- C6 is false as stated: with `decay = 2` the row `B:2` satisfies the SQL
condition `monthly_kudos > decay - 1` (2 > 1), so B is decayed to 0, not left
at 2 as the claim's worked example says. -/
theorem c6_counterexample :
    decayStep 2 usersC6 =
      [(1, { defaultUser with monthly_kudos := 3 }),
       (2, { defaultUser with monthly_kudos := 0 }),
       (3, defaultUser)]
    ∧ findUser (decayStep 2 usersC6) 2 ≠ some { defaultUser with monthly_kudos := 2 } := by
  decide

/-- C6 amended: the decay pass decrements exactly the identities with
`monthly_kudos > decay - 1`, i.e. balance at least `decay` — a balance equal
to `decay` is decayed to 0 — leaves balances strictly below `decay`
untouched, never drives a non-negative balance negative, and on
`{A:5, B:2, C:0}` with `decay = 2` yields `{A:3, B:0, C:0}`. -/
theorem c6_amended (decay : Int) (users : List (Nat × User)) (uid : Nat) (u : User)
    (h : findUser users uid = some u) :
    findUser (decayStep decay users) uid =
      some (if 0 < decay ∧ decay - 1 < u.monthly_kudos then
        { u with monthly_kudos := u.monthly_kudos - decay } else u)
    ∧ (0 ≤ u.monthly_kudos →
        0 ≤ (if 0 < decay ∧ decay - 1 < u.monthly_kudos then
          { u with monthly_kudos := u.monthly_kudos - decay } else u).monthly_kudos)
    ∧ decayStep 2 usersC6 =
        [(1, { defaultUser with monthly_kudos := 3 }),
         (2, { defaultUser with monthly_kudos := 0 }),
         (3, defaultUser)] := by
  refine ⟨?_, ?_, by decide⟩
  · rw [findUser_decayStep, h]
    rfl
  · intro h0
    by_cases hc : 0 < decay ∧ decay - 1 < u.monthly_kudos
    · rw [if_pos hc]
      show 0 ≤ u.monthly_kudos - decay
      omega
    · rw [if_neg hc]
      exact h0

/-- Witness for the amended C6 at identity A of the concrete store. -/
theorem c6_amended_witness :
    findUser (decayStep 2 usersC6) 1 = some { defaultUser with monthly_kudos := 3 }
    ∧ (0 : Int) ≤ ({ defaultUser with monthly_kudos := 3 } : User).monthly_kudos := by
  obtain ⟨h1, h2, _⟩ :=
    c6_amended 2 usersC6 1 { defaultUser with monthly_kudos := 5 } (by decide)
  have h2p := h2 (by decide)
  refine ⟨?_, ?_⟩
  · rw [h1]; decide
  · exact h2p

/-!
## C7: return value of the daily maintenance
-/

/-- C7: the code contradicts its own docstring ("or None if no users have
kudos").  On a store whose only identity holds 0 kudos, with `decay = 0` and
`bonus = 3`, `apply_daily_maintenance` returns that identity (not `none`) and
still pays the bonus to the zero-balance identity. -/
theorem c7_code_behavior :
    apply_daily_maintenance 0 3 [(1, defaultUser)] =
      (some 1, [(1, { defaultUser with monthly_kudos := 3 })])
    ∧ (apply_daily_maintenance 0 3 [(1, defaultUser)]).1 ≠ none := by decide

/-!
## C8: what the monthly reset returns
-/

theorem findUser_zeroAllKudos (uid : Nat) (users : List (Nat × User)) :
    findUser (zeroAllKudos users) uid =
      (findUser users uid).map (fun v => { v with monthly_kudos := 0 }) := by
  unfold zeroAllKudos
  induction users with
  | nil => rfl
  | cons p rest ih =>
    by_cases hp : p.1 = uid <;> simp [findUser, hp, ih]

theorem findHistory_upsert_self (key : Nat × Nat) (rec : HistRec)
    (hist : List ((Nat × Nat) × HistRec)) :
    findHistory (upsertHistory key rec hist) key = some rec := by
  unfold upsertHistory findHistory
  induction hist with
  | nil => simp
  | cons e rest ih =>
    by_cases he : e.1 = key
    · rw [List.filter_cons_of_neg (by simp [he])]
      exact ih
    · rw [List.filter_cons_of_pos (by simp [he]), List.cons_append,
        List.find?_cons_of_neg _ (by simp [he])]
      exact ih

theorem topUser_ne_none (p : Nat × User) (rest : List (Nat × User)) :
    topUser (p :: rest) ≠ none := by
  cases h : topUser rest with
  | none => simp [topUser, h]
  | some q =>
    simp only [topUser, h]
    split <;> simp

/-- Store for C8: a single identity with 5 kudos at level 3. -/
def dbC8 : Db :=
  { users := [(1, { defaultUser with monthly_kudos := 5, lifetime_level := 3 })],
    log := [], history := [] }

/-- C8 is false as stated: the record `monthly_reset` returns carries the
winner's PRE-promotion level (3), not the post-promotion level (4); the
post-promotion level lives only in the store and in the history record. -/
theorem c8_counterexample :
    (monthly_reset ⟨2025, 4, 1⟩ dbC8).1 =
      some (1, { defaultUser with monthly_kudos := 5, lifetime_level := 3 })
    ∧ (monthly_reset ⟨2025, 4, 1⟩ dbC8).1 ≠
      some (1, { defaultUser with monthly_kudos := 5, lifetime_level := 4 })
    ∧ findUser (monthly_reset ⟨2025, 4, 1⟩ dbC8).2.users 1 =
      some { defaultUser with monthly_kudos := 0, lifetime_level := 4 }
    ∧ findHistory (monthly_reset ⟨2025, 4, 1⟩ dbC8).2.history (2025, 3) =
      some { user_id := 1, monthly_kudos := 5, new_level := 4,
             timestamp := ⟨2025, 4, 1⟩ } := by decide

/-- C8 amended: `monthly_reset` returns exactly the winner row as fetched
before any mutation — pre-reset balance and PRE-promotion level; the history
record for the closing month carries the pre-reset balance and the
post-promotion level (old + 1), the stored row is promoted and zeroed, and the
return value is `none` exactly when the users table is empty. -/
theorem c8_amended (now : Date) (db : Db) :
    (monthly_reset now db).1 = topUser db.users
    ∧ (∀ uid u, topUser db.users = some (uid, u) →
        findHistory (monthly_reset now db).2.history (prevMonth now) =
          some { user_id := uid, monthly_kudos := u.monthly_kudos,
                 new_level := u.lifetime_level + 1, timestamp := now }
        ∧ findUser (monthly_reset now db).2.users uid =
            (findUser db.users uid).map
              (fun v => { v with
                          monthly_kudos := 0,
                          lifetime_level := u.lifetime_level + 1 }))
    ∧ ((monthly_reset now db).1 = none ↔ db.users = []) := by
  refine ⟨?_, ?_, ?_⟩
  · cases h : topUser db.users with
    | none => simp [monthly_reset, h]
    | some w => simp [monthly_reset, h]
  · intro uid u h
    constructor
    · simp only [monthly_reset, h]
      exact findHistory_upsert_self (prevMonth now) _ db.history
    · simp only [monthly_reset, h]
      rw [findUser_zeroAllKudos, findUser_updateUser_self]
      cases hf : findUser db.users uid <;> rfl
  · cases hu : db.users with
    | nil => simp [monthly_reset, hu, topUser]
    | cons p rest =>
      have h1 : (monthly_reset now db).1 = topUser db.users := by
        cases h : topUser db.users with
        | none => simp [monthly_reset, h]
        | some w => simp [monthly_reset, h]
      rw [h1, hu]
      simp [topUser_ne_none p rest]

/-- Witness for the amended C8 on the concrete one-identity store. -/
theorem c8_amended_witness :
    (monthly_reset ⟨2025, 4, 1⟩ dbC8).1 = topUser dbC8.users
    ∧ findHistory (monthly_reset ⟨2025, 4, 1⟩ dbC8).2.history (prevMonth ⟨2025, 4, 1⟩) =
        some { user_id := 1, monthly_kudos := 5, new_level := 4,
               timestamp := ⟨2025, 4, 1⟩ } := by
  obtain ⟨h1, h2, _⟩ := c8_amended ⟨2025, 4, 1⟩ dbC8
  obtain ⟨ha, _⟩ := h2 1 { defaultUser with monthly_kudos := 5, lifetime_level := 3 }
    (by decide)
  refine ⟨h1, ?_⟩
  rw [ha]
  rfl


/-!
## C9: scheduler tick guards
-/

/-- Store for C9: one identity with a positive balance, so a skipped monthly
reset is observable. -/
def dbC9 : Db :=
  { users := [(1, { defaultUser with monthly_kudos := 5 })], log := [], history := [] }

/-- C9 is false as stated for the monthly transition: on 2025-03-02 with the
marker still at 2025-02-01 the month key differs from the marker's month, yet
the tick does not fire (the guard also requires day = 1), even though running
the reset would have changed the store. -/
theorem c9_counterexample :
    monthlyTick ⟨2025, 3, 2⟩ (some ⟨2025, 2, 1⟩) dbC9 = (some ⟨2025, 2, 1⟩, dbC9)
    ∧ monthKey ⟨2025, 3, 2⟩ ≠ monthKey ⟨2025, 2, 1⟩
    ∧ (monthly_reset ⟨2025, 3, 2⟩ dbC9).2 ≠ dbC9 := by decide

/-- C9 amended: the daily tick fires exactly when the current date differs
from the marker (so a missed day is recovered at the next tick), while the
monthly tick fires exactly when the day of month is 1 and the marker differs
from today's date (so a first-of-month missed entirely during downtime is
skipped); for both loops a second tick in the same period is a no-op. -/
theorem c9_amended (decay bonus : Int) (today now : Date) (marker : Option Date)
    (db : Db) :
    (marker ≠ some today →
      dailyTick decay bonus today marker db =
        (some today, { db with users := (apply_daily_maintenance decay bonus db.users).2 }))
    ∧ (marker = some today → dailyTick decay bonus today marker db = (marker, db))
    ∧ dailyTick decay bonus today (dailyTick decay bonus today marker db).1
        (dailyTick decay bonus today marker db).2 = dailyTick decay bonus today marker db
    ∧ (now.day = 1 ∧ marker ≠ some now →
        monthlyTick now marker db = (some now, (monthly_reset now db).2))
    ∧ (¬(now.day = 1 ∧ marker ≠ some now) → monthlyTick now marker db = (marker, db))
    ∧ monthlyTick now (monthlyTick now marker db).1 (monthlyTick now marker db).2 =
        monthlyTick now marker db := by
  refine ⟨?_, ?_, ?_, ?_, ?_, ?_⟩
  · intro h
    unfold dailyTick
    rw [if_neg h]
  · intro h
    unfold dailyTick
    rw [if_pos h]
  · by_cases h : marker = some today
    · have hnop : dailyTick decay bonus today marker db = (marker, db) := by
        unfold dailyTick; rw [if_pos h]
      rw [hnop]
      exact hnop
    · have hfire : dailyTick decay bonus today marker db =
          (some today, { db with users := (apply_daily_maintenance decay bonus db.users).2 }) := by
        unfold dailyTick; rw [if_neg h]
      rw [hfire]
      unfold dailyTick
      rw [if_pos rfl]
  · intro h
    unfold monthlyTick
    rw [if_pos h]
  · intro h
    unfold monthlyTick
    rw [if_neg h]
  · by_cases h : now.day = 1 ∧ marker ≠ some now
    · have hfire : monthlyTick now marker db = (some now, (monthly_reset now db).2) := by
        unfold monthlyTick; rw [if_pos h]
      rw [hfire]
      unfold monthlyTick
      rw [if_neg (by simp)]
    · have hnop : monthlyTick now marker db = (marker, db) := by
        unfold monthlyTick; rw [if_neg h]
      rw [hnop]
      exact hnop

/-- Witness for the amended C9 on concrete dates around 2025-03. -/
theorem c9_amended_witness :
    dailyTick 2 1 ⟨2025, 3, 2⟩ (some ⟨2025, 3, 1⟩) dbC9 =
      (some ⟨2025, 3, 2⟩, { dbC9 with users := (apply_daily_maintenance 2 1 dbC9.users).2 })
    ∧ dailyTick 2 1 ⟨2025, 3, 2⟩ (some ⟨2025, 3, 2⟩) dbC9 = (some ⟨2025, 3, 2⟩, dbC9)
    ∧ monthlyTick ⟨2025, 3, 1⟩ (some ⟨2025, 2, 1⟩) dbC9 =
      (some ⟨2025, 3, 1⟩, (monthly_reset ⟨2025, 3, 1⟩ dbC9).2)
    ∧ monthlyTick ⟨2025, 3, 2⟩ (some ⟨2025, 2, 1⟩) dbC9 = (some ⟨2025, 2, 1⟩, dbC9) :=
  ⟨(c9_amended 2 1 ⟨2025, 3, 2⟩ ⟨2025, 3, 1⟩ (some ⟨2025, 3, 1⟩) dbC9).1 (by decide),
   (c9_amended 2 1 ⟨2025, 3, 2⟩ ⟨2025, 3, 1⟩ (some ⟨2025, 3, 2⟩) dbC9).2.1 (by decide),
   (c9_amended 2 1 ⟨2025, 3, 2⟩ ⟨2025, 3, 1⟩ (some ⟨2025, 2, 1⟩) dbC9).2.2.2.1 (by decide),
   (c9_amended 2 1 ⟨2025, 3, 2⟩ ⟨2025, 3, 2⟩ (some ⟨2025, 2, 1⟩) dbC9).2.2.2.2.1 (by decide)⟩

/-!
## C10: sign of the monthly balance over all reachable states
-/

/-- The ledger's mutating operations, as dispatched by the handlers and
scheduler loops of `src/main.py`. -/
inductive LedgerOp where
  | getOrCreate (uid : Nat)
  | reactionAdd (limit : Int) (today : Date) (msg reactor creator : Nat)
  | reactionRemove (msg reactor creator : Nat)
  | greeting (msg bot_id creator : Nat)
  | adminAdd (uid : Nat) (amount : Int)
  | maintenance (decay bonus : Int)
  | monthlyReset (now : Date)

/-- One ledger operation applied to the store. -/
def stepOp : LedgerOp → Db → Db
  | LedgerOp.getOrCreate uid, db => { db with users := get_or_create_user uid db.users }
  | LedgerOp.reactionAdd limit today msg r c, db => (onReactionAdd limit today msg r c db).2
  | LedgerOp.reactionRemove msg r c, db => onReactionRemove msg r c db
  | LedgerOp.greeting msg b c, db => onBotGreetingReaction msg b c db
  | LedgerOp.adminAdd uid amt, db => addKudosCommand uid amt db
  | LedgerOp.maintenance d b, db => { db with users := (apply_daily_maintenance d b db.users).2 }
  | LedgerOp.monthlyReset now, db => (monthly_reset now db).2

/-- The stores reachable from the empty store by ledger operations. -/
inductive ReachableDb : Db → Prop where
  | init : ReachableDb dbEmpty
  | step (op : LedgerOp) (db : Db) : ReachableDb db → ReachableDb (stepOp op db)

/-- Every balance in the table is non-negative. -/
def UsersNonneg (users : List (Nat × User)) : Prop :=
  ∀ p ∈ users, 0 ≤ p.2.monthly_kudos

theorem usersNonneg_updateUser (uid : Nat) (f : User → User)
    (hf : ∀ u, 0 ≤ u.monthly_kudos → 0 ≤ (f u).monthly_kudos) :
    ∀ users, UsersNonneg users → UsersNonneg (updateUser uid f users) := by
  intro users
  induction users with
  | nil =>
    intro _ p hp
    simp [updateUser] at hp
  | cons q rest ih =>
    intro h p hp
    simp only [updateUser] at hp
    rcases List.mem_cons.mp hp with h1 | h2
    · by_cases hq : q.1 = uid
      · rw [if_pos hq] at h1
        subst h1
        exact hf q.2 (h q (List.mem_cons_self q rest))
      · rw [if_neg hq] at h1
        subst h1
        exact h p (List.mem_cons_self p rest)
    · exact ih (fun x hx => h x (List.mem_cons_of_mem q hx)) p h2

theorem usersNonneg_goc (uid : Nat) (users : List (Nat × User))
    (h : UsersNonneg users) : UsersNonneg (get_or_create_user uid users) := by
  unfold get_or_create_user
  split
  · exact h
  · intro p hp
    rcases List.mem_append.mp hp with h1 | h2
    · exact h p h1
    · rw [List.mem_singleton.mp h2]
      exact le_refl 0

theorem usersNonneg_zeroAll (users : List (Nat × User)) :
    UsersNonneg (zeroAllKudos users) := by
  intro p hp
  unfold zeroAllKudos at hp
  obtain ⟨q, _, rfl⟩ := List.mem_map.mp hp
  exact le_refl 0

theorem usersNonneg_reset_daily (today : Date) (uid : Nat)
    (users : List (Nat × User)) (h : UsersNonneg users) :
    UsersNonneg (reset_daily_limit_if_needed today uid users) := by
  unfold reset_daily_limit_if_needed
  split
  · exact usersNonneg_updateUser uid
      (fun v => { v with daily_awards_given := 0, last_award_date := some today })
      (fun v hv => hv) _ (usersNonneg_goc uid users h)
  · exact usersNonneg_goc uid users h

theorem usersNonneg_decayStep (decay : Int) (users : List (Nat × User))
    (h : UsersNonneg users) : UsersNonneg (decayStep decay users) := by
  unfold decayStep
  split
  · intro p hp
    obtain ⟨q, hq, rfl⟩ := List.mem_map.mp hp
    by_cases hc : decay - 1 < q.2.monthly_kudos
    · rw [if_pos hc]
      show 0 ≤ q.2.monthly_kudos - decay
      omega
    · rw [if_neg hc]
      exact h q hq
  · exact h

theorem usersNonneg_maintenance (decay bonus : Int) (users : List (Nat × User))
    (h : UsersNonneg users) :
    UsersNonneg ((apply_daily_maintenance decay bonus users).2) := by
  have hd := usersNonneg_decayStep decay users h
  unfold apply_daily_maintenance
  cases htop : topUser (decayStep decay users) with
  | none =>
    simp only [htop]
    exact hd
  | some w =>
    obtain ⟨uid, u⟩ := w
    simp only [htop]
    split
    · rename_i hb
      exact usersNonneg_updateUser uid _
        (fun v hv => by show 0 ≤ v.monthly_kudos + bonus; omega) _ hd
    · exact hd

theorem stepOp_nonneg (op : LedgerOp) (db : Db) (h : UsersNonneg db.users) :
    UsersNonneg (stepOp op db).users := by
  cases op with
  | getOrCreate uid => exact usersNonneg_goc uid db.users h
  | reactionAdd limit today msg r c =>
    show UsersNonneg (onReactionAdd limit today msg r c db).2.users
    unfold onReactionAdd
    split
    · exact usersNonneg_reset_daily today r db.users h
    · show UsersNonneg (award_kudos today c r
        (get_or_create_user c (reset_daily_limit_if_needed today r db.users)))
      unfold award_kudos
      exact usersNonneg_updateUser r _
        (fun v hv => by show 0 ≤ v.monthly_kudos + 1; omega) _
        (usersNonneg_updateUser c _
          (fun v hv => by show 0 ≤ v.monthly_kudos + 2; omega) _
          (usersNonneg_goc c _ (usersNonneg_reset_daily today r db.users h)))
  | reactionRemove msg r c =>
    show UsersNonneg (onReactionRemove msg r c db).users
    unfold onReactionRemove
    split
    · show UsersNonneg (remove_kudos c r db.users)
      unfold remove_kudos
      refine usersNonneg_updateUser r _ ?_ _ (usersNonneg_updateUser c _ ?_ _ h)
      · intro v hv
        by_cases h1 : 1 ≤ v.monthly_kudos
        · rw [if_pos h1]
          show 0 ≤ v.monthly_kudos - 1
          omega
        · rw [if_neg h1]
          exact hv
      · intro v hv
        by_cases h2 : 2 ≤ v.monthly_kudos
        · rw [if_pos h2]
          show 0 ≤ v.monthly_kudos - 2
          omega
        · rw [if_neg h2]
          exact hv
    · exact h
  | greeting msg b c =>
    show UsersNonneg (onBotGreetingReaction msg b c db).users
    unfold onBotGreetingReaction award_daily_greeting_kudos
    exact usersNonneg_updateUser c _
      (fun v hv => by show 0 ≤ v.monthly_kudos + 1; omega) _
      (usersNonneg_goc c db.users h)
  | adminAdd uid amt =>
    show UsersNonneg (addKudosCommand uid amt db).users
    unfold addKudosCommand
    split
    · exact h
    · rename_i hamt
      exact usersNonneg_updateUser uid _
        (fun v hv => by show 0 ≤ v.monthly_kudos + amt; omega) _
        (usersNonneg_goc uid db.users h)
  | maintenance d b => exact usersNonneg_maintenance d b db.users h
  | monthlyReset now =>
    show UsersNonneg (monthly_reset now db).2.users
    unfold monthly_reset
    cases htop : topUser db.users with
    | none =>
      simp only [htop]
      exact usersNonneg_zeroAll db.users
    | some w =>
      obtain ⟨uid, u⟩ := w
      simp only [htop]
      exact usersNonneg_zeroAll _

theorem reachable_nonneg (db : Db) (h : ReachableDb db) : UsersNonneg db.users := by
  induction h with
  | init =>
    intro p hp
    simp [dbEmpty] at hp
  | step op db _ ih => exact stepOp_nonneg op db ih

/-- C10 is false as stated: no reachable store holds a negative balance —
every mutation either adds a positive amount, is floor-guarded, or zeroes. -/
theorem c10_counterexample :
    ¬ ∃ db : Db, ReachableDb db ∧ ∃ p ∈ db.users, p.2.monthly_kudos < 0 := by
  rintro ⟨db, hdb, p, hp, hneg⟩
  have := reachable_nonneg db hdb p hp
  omega

/-- C10 amended: `monthly_kudos ≥ 0` is an invariant of every store reachable
through the ledger's operations (award, retract, greeting bonus,
administrative grant, daily decay/bonus, monthly reset): awards and grants add
positive amounts, removal and decay are floor-guarded, and the reset zeroes,
so no identity's balance ever becomes negative. -/
theorem c10_amended (db : Db) (h : ReachableDb db) :
    ∀ p ∈ db.users, 0 ≤ p.2.monthly_kudos :=
  reachable_nonneg db h

/-- A small reachable store to witness the amended C10. -/
def dbW10 : Db := stepOp (LedgerOp.getOrCreate 1) dbEmpty

/-- Witness for the amended C10: the balance of the one identity of a
concrete reachable store is non-negative. -/
theorem c10_amended_witness : (0 : Int) ≤ (getUserD dbW10.users 1).monthly_kudos := by
  have h := c10_amended dbW10
    (ReachableDb.step (LedgerOp.getOrCreate 1) dbEmpty ReachableDb.init)
  have hm : (1, defaultUser) ∈ dbW10.users := by decide
  exact h (1, defaultUser) hm
